import Mathlib

/-!
Verification development for the gperftools-profile-to-flamegraph converter
(`gperf2flamegraph.py` and `utils.py`).

The binary profile is modelled at 64-bit word granularity: the byte stream of
the profile file is a `List Nat` of the words that `struct.unpack('Q'*n, ...)`
would produce, and a short read (truncated file) is a request for more words
than remain.  Python integers are unbounded, so addresses and arithmetic are
modelled with `Nat`/`Int` directly; no arithmetic in the translated code can
overflow a 64-bit word because the parser performs no arithmetic on word
values and the resolver runs on unbounded Python ints.
-/

namespace Gperf

/-- One stack record of the profile: `Stacktrace(sample_count, pcs)` from
`gperf2flamegraph.py` (the optional `symbols` field is filled in later by
`process` and is modelled separately as `SymStack`). -/
structure Stacktrace where
  sample_count : Nat
  pcs : List Nat
deriving DecidableEq

/-- `ProfilerResult` from `gperf2flamegraph.py`.  The trailing memory-map text
is the undecoded remainder of the word stream. -/
structure ProfilerResult where
  sampling_period_in_us : Nat
  stacktraces : List Stacktrace
  proc_mapped_words : List Nat
deriving DecidableEq

/-- The record-reading loop of `_parse_profiler_result`: repeatedly read
`(sample_count, num_pcs)` then `num_pcs` program counters; a record with
`sample_count == 0` must be the trailer (`num_pcs == 1`) and stops the loop.
`none` models the fatal exceptions (struct.error on short read,
AssertionError on a bad trailer).  Returns the parsed stacktraces and the
unread remainder of the stream. -/
def parse_records (ws : List Nat) : Option (List Stacktrace × List Nat) :=
  match ws with
  | w :: n :: rest =>
    if n ≤ rest.length then
      if w = 0 then
        if n = 1 then some ([], rest.drop n) else none
      else
        match parse_records (rest.drop n) with
        | some (sts, rem) => some (⟨w, rest.take n⟩ :: sts, rem)
        | none => none
    else none
  | _ => none
termination_by ws.length
decreasing_by
  simp only [List.length_cons, List.length_drop]
  omega

/-- `_parse_profiler_result`: read the five header words, check
`count == 0 ∧ slots == 3 ∧ version == 0 ∧ padding == 0` (note: the
sampling period is *not* validated), then parse records until the trailer. -/
def parse_profiler_result (ws : List Nat) : Option ProfilerResult :=
  match ws with
  | header_count :: header_slots :: version :: sampling_period_in_us :: padding :: rest =>
    if header_count = 0 ∧ header_slots = 3 ∧ version = 0 ∧ padding = 0 then
      match parse_records rest with
      | some (sts, rem) => some ⟨sampling_period_in_us, sts, rem⟩
      | none => none
    else none
  | _ => none

/-- The word stream produced by one record: `weight, num_pcs, pc[0..num_pcs)`. -/
def encode_record (st : Stacktrace) : List Nat :=
  st.sample_count :: st.pcs.length :: st.pcs

/-- The word stream produced by a list of records. -/
def encode_records (sts : List Stacktrace) : List Nat :=
  (sts.map encode_record).flatten

lemma parse_records_cons (w n : Nat) (rest : List Nat) :
    parse_records (w :: n :: rest) =
      if n ≤ rest.length then
        if w = 0 then
          if n = 1 then some ([], rest.drop n) else none
        else
          match parse_records (rest.drop n) with
          | some (sts, rem) => some (⟨w, rest.take n⟩ :: sts, rem)
          | none => none
      else none := by
  rw [parse_records]

lemma parse_records_trailer (t : Nat) (rest : List Nat) :
    parse_records (0 :: 1 :: t :: rest) = some ([], rest) := by
  rw [parse_records_cons]
  simp

lemma parse_records_encode_append (sts : List Stacktrace)
    (h : ∀ st ∈ sts, 0 < st.sample_count) (tail : List Nat) :
    parse_records (encode_records sts ++ tail)
      = (parse_records tail).map (fun pr => (sts ++ pr.1, pr.2)) := by
  induction sts with
  | nil =>
    simp only [encode_records, List.map_nil, List.flatten_nil, List.nil_append]
    cases hpt : parse_records tail <;> simp [hpt]
  | cons st sts ih =>
    have hst : 0 < st.sample_count := h st (by simp)
    have hsts : ∀ s ∈ sts, 0 < s.sample_count := fun s hs => h s (by simp [hs])
    have hrw : encode_records (st :: sts) ++ tail
        = st.sample_count :: st.pcs.length :: (st.pcs ++ (encode_records sts ++ tail)) := by
      simp [encode_records, encode_record]
    rw [hrw, parse_records_cons]
    have hlen : st.pcs.length ≤ (st.pcs ++ (encode_records sts ++ tail)).length := by
      simp
    rw [if_pos hlen, if_neg (by omega)]
    rw [List.drop_left, List.take_left, ih hsts]
    cases hpt : parse_records tail <;> simp [hpt]

lemma parse_profiler_result_header (p : Nat) (rest : List Nat) :
    parse_profiler_result (0 :: 3 :: 0 :: p :: 0 :: rest)
      = (parse_records rest).map (fun pr => ⟨p, pr.1, pr.2⟩) := by
  rw [parse_profiler_result]
  simp only [and_self, if_true, true_and]
  cases hpt : parse_records rest <;> simp [hpt]

/-- Claim C4: for every well-formed profile stream — a valid header, any
sequence of records with positive weight, then the trailer `0, 1, pc` — the
parser stops exactly at the trailer, never appends the trailer to the sample
collection, returns exactly the non-trailer records in order, and leaves the
remaining words (the memory-map text) untouched; zero records before the
trailer yields an empty sample sequence without error. -/
theorem c4_parser_stops_at_trailer (sts : List Stacktrace)
    (h : ∀ st ∈ sts, 0 < st.sample_count) (p t : Nat) (rest : List Nat) :
    parse_profiler_result
        (0 :: 3 :: 0 :: p :: 0 :: (encode_records sts ++ 0 :: 1 :: t :: rest))
      = some ⟨p, sts, rest⟩ := by
  rw [parse_profiler_result_header, parse_records_encode_append sts h,
    parse_records_trailer]
  simp

theorem c4_parser_stops_at_trailer_witness :
    parse_profiler_result
        (0 :: 3 :: 0 :: 10 :: 0 ::
          (encode_records [⟨2, [5, 6]⟩, ⟨1, [7]⟩] ++ 0 :: 1 :: 9 :: [4, 4]))
      = some ⟨10, [⟨2, [5, 6]⟩, ⟨1, [7]⟩], [4, 4]⟩ :=
  c4_parser_stops_at_trailer [⟨2, [5, 6]⟩, ⟨1, [7]⟩] (by decide) 10 9 [4, 4]

/-- Claim C5: after any prefix of valid records, parsing fails fatally (no
partial sample output) when a record with weight 0 announces a pc count
different from 1, and when the stream ends before the announced
length-prefixed words are fully present (short read). -/
theorem c5_parse_errors (sts : List Stacktrace)
    (h : ∀ st ∈ sts, 0 < st.sample_count) (p : Nat) :
    (∀ n t_pcs, (t_pcs : List Nat).length = n → n ≠ 1 →
        parse_profiler_result
            (0 :: 3 :: 0 :: p :: 0 :: (encode_records sts ++ 0 :: n :: t_pcs))
          = none)
  ∧ (∀ w n rest, (rest : List Nat).length < n →
        parse_profiler_result
            (0 :: 3 :: 0 :: p :: 0 :: (encode_records sts ++ w :: n :: rest))
          = none) := by
  constructor
  · intro n t_pcs hlen hn
    rw [parse_profiler_result_header, parse_records_encode_append sts h,
      parse_records_cons]
    simp [hlen, hn]
  · intro w n rest hlen
    rw [parse_profiler_result_header, parse_records_encode_append sts h,
      parse_records_cons]
    rw [if_neg (by omega)]
    simp

theorem c5_parse_errors_witness :
    parse_profiler_result
        (0 :: 3 :: 0 :: 7 :: 0 :: (encode_records [⟨2, [5]⟩] ++ 0 :: 2 :: [8, 9]))
      = none
  ∧ parse_profiler_result
        (0 :: 3 :: 0 :: 7 :: 0 :: (encode_records [⟨2, [5]⟩] ++ 3 :: 5 :: [8, 9]))
      = none :=
  ⟨(c5_parse_errors [⟨2, [5]⟩] (by decide) 7).1 2 [8, 9] (by decide) (by decide),
   (c5_parse_errors [⟨2, [5]⟩] (by decide) 7).2 3 5 [8, 9] (by decide)⟩

/-- Claim C3 counterexample: a header with `sampling_period == 0` and all four
checked conditions satisfied is accepted by `parse_profiler_result`, not
rejected: the code never validates the sampling period. -/
theorem c3_counterexample :
    parse_profiler_result [0, 3, 0, 0, 0, 0, 1, 7] = some ⟨0, [], []⟩ := by
  have h := parse_profiler_result_header 0 [0, 1, 7]
  rw [parse_records_trailer] at h
  simpa using h

/-- Claim C3 (amended): a five-word header violating any one of
`count == 0`, `slots == 3`, `version == 0`, `padding == 0` is rejected with a
fatal format error at parse start; the sampling period is not validated. -/
theorem c3_header_check (c s v p pad : Nat) (rest : List Nat)
    (h : ¬(c = 0 ∧ s = 3 ∧ v = 0 ∧ pad = 0)) :
    parse_profiler_result (c :: s :: v :: p :: pad :: rest) = none := by
  rw [parse_profiler_result]
  simp [h]

theorem c3_header_check_witness :
    parse_profiler_result (1 :: 3 :: 0 :: 100 :: 0 :: [0, 1, 7]) = none :=
  c3_header_check 1 3 0 100 0 [0, 1, 7] (by decide)

/-! ## String helpers

Python string primitives used by `utils.py`, modelled over `List Char` so
that every operation is structurally recursive. -/

/-- Python `s.strip(c)` for a single character: remove that character from
both ends. -/
def py_strip_char (s : String) (c : Char) : String :=
  String.mk (((s.toList.dropWhile (· = c)).reverse.dropWhile (· = c)).reverse)

/-- `_remove_matching_brackets` from `utils.py`, translated faithfully: the
line `depth == 1` in the source is a comparison, not an assignment, so the
depth is never incremented on an opening bracket; it is only ever decremented
on a closing bracket, and characters are kept exactly while the depth is 0. -/
def remove_matching_brackets (s : String) (bk ek : Char) : String :=
  let step : List Char × Int → Char → List Char × Int := fun acc c =>
    if c = bk then acc
    else if c = ek then (acc.1, acc.2 - 1)
    else if acc.2 = 0 then (acc.1 ++ [c], acc.2)
    else acc
  String.mk (s.toList.foldl step ([], 0)).1

/-- `_cleanup_symbol` from `utils.py`: strip the three bracket kinds, then
strip leading/trailing colons. -/
def cleanup_symbol (s : String) : String :=
  py_strip_char
    (remove_matching_brackets
      (remove_matching_brackets
        (remove_matching_brackets s '(' ')') '[' ']') '<' '>') ':'

/-- A symbol-table entry: `Symbol(address, symbol)` from `utils.py`.  The
address is an `Int` because the pre-link translation in the resolver runs on
unbounded Python integers and can in principle go negative. -/
structure Symbol where
  address : Int
  symbol : String
deriving DecidableEq

/-- `Symbol.simplified_symbol` (the memoization is semantically invisible). -/
def simplified_symbol (sym : Symbol) : String := cleanup_symbol sym.symbol

/-- Modelled from the spec: the intended bracket simplification — remove every
balanced bracket group of one kind, including the bracket characters and
everything nested inside them.  This tracks the depth correctly (incrementing
on an opening bracket), unlike the source. -/
def spec_remove_bracket_groups (s : String) (bk ek : Char) : String :=
  let step : List Char × Nat → Char → List Char × Nat := fun acc c =>
    if c = bk then (acc.1, acc.2 + 1)
    else if c = ek then (acc.1, acc.2 - 1)
    else if acc.2 = 0 then (acc.1 ++ [c], acc.2)
    else acc
  String.mk (s.toList.foldl step ([], 0)).1

/-- Modelled from the spec: the intended simplification of a symbol name —
all balanced `()`, `[]`, `<>` groups removed, then leading/trailing colons
stripped. -/
def spec_cleanup_symbol (s : String) : String :=
  py_strip_char
    (spec_remove_bracket_groups
      (spec_remove_bracket_groups
        (spec_remove_bracket_groups s '(' ')') '[' ']') '<' '>') ':'

/-- Claim C7 (code bug): the claim describes the intended simplification
(`"foo(bar)"` → `"foo"`), which the spec-modelled function produces, but the
source's depth tracking never increments on an opening bracket (`depth == 1`
is a comparison), so the code keeps the contents of a bracket group and drops
everything after the closing bracket instead: `"foo(bar)"` becomes
`"foobar"`, and `"foo<int>(bar::baz)"` becomes `"fooint"` rather than the
intended `"foo::baz"`. -/
theorem c7_bracket_bug :
    cleanup_symbol "foo(bar)" = "foobar"
  ∧ spec_cleanup_symbol "foo(bar)" = "foo"
  ∧ cleanup_symbol "foo(bar)" ≠ spec_cleanup_symbol "foo(bar)"
  ∧ cleanup_symbol "foo<int>(bar::baz)" = "fooint"
  ∧ spec_cleanup_symbol "foo<int>(bar::baz)" = "foo" := by
  refine ⟨?_, ?_, ?_, ?_, ?_⟩ <;> decide

/-- Split a character list at every occurrence of `c` (Python `str.split(c)`,
no maxsplit). -/
def split_on_char (c : Char) : List Char → List (List Char)
  | [] => [[]]
  | x :: xs =>
    if x = c then [] :: split_on_char c xs
    else
      match split_on_char c xs with
      | g :: gs => (x :: g) :: gs
      | [] => [[x]]

/-- `pathlib.Path(p).name`: the final path component. -/
def path_name (p : String) : String :=
  ((split_on_char '/' p.toList).map String.mk).getLastD ""

/-- `_UNKNOWN_SYMBOL` from `gperf2flamegraph.py`. -/
def UNKNOWN_SYMBOL : String := "???"

/-! ## Resolver -/

/-- `SymbolResolver.MappedObject` from `utils.py`.  `all_addrs_sorted` is
always built as `[symbol.address for symbol in all_symbols_sorted]`, so it is
modelled as the derived list `all_symbols_sorted.map Symbol.address` rather
than a separate field. -/
structure MappedObject where
  start_address : Int
  end_address : Int
  offset : Int
  obj_path : String
  is_executable : Bool
  all_symbols_sorted : List Symbol
  obj_start_vma : Int
deriving DecidableEq

/-- The membership test of `resolve_symbols_batch`:
`obj.start_address <= pc < obj.end_address`. -/
def in_range (obj : MappedObject) (pc : Int) : Prop :=
  obj.start_address ≤ pc ∧ pc < obj.end_address

instance (obj : MappedObject) (pc : Int) : Decidable (in_range obj pc) :=
  inferInstanceAs (Decidable (_ ∧ _))

/-- The address translation of `resolve_symbols_batch`:
`addr_before_linked = pc - obj.start_address + obj.offset + obj.obj_start_vma`. -/
def translate_pc (obj : MappedObject) (pc : Int) : Int :=
  pc - obj.start_address + obj.offset + obj.obj_start_vma

/-- `bisect.bisect_right` on a sorted ascending list: the insertion point,
i.e. the number of leading entries `<= x`. -/
def bisect_right (l : List Int) (x : Int) : Nat :=
  (l.takeWhile (fun a => a ≤ x)).length

/-- The body of `resolve_symbols_batch` for one mapped object and one counter:
`none` when the counter is out of range or the bisection index is out of
bounds (`idx = bisect_right(...) - 1` with `0 <= idx < len` in the source),
otherwise the rendered symbol string. -/
def resolve_in_obj (simplify_symbol annotate_libname : Bool)
    (obj : MappedObject) (pc : Int) : Option String :=
  if in_range obj pc then
    let idx := bisect_right (obj.all_symbols_sorted.map Symbol.address)
      (translate_pc obj pc)
    if idx = 0 then none
    else
      match obj.all_symbols_sorted.get? (idx - 1) with
      | some sym =>
        let sym_str := if simplify_symbol then simplified_symbol sym else sym.symbol
        some (if annotate_libname ∧ obj.is_executable = false
          then sym_str ++ " [" ++ path_name obj.obj_path ++ "]" else sym_str)
      | none => none
  else none

/-- The net effect of `resolve_symbols_batch` on one counter: the source loops
over the objects in order and overwrites `result[pc]` on every successful
resolution, so the final dictionary entry comes from the *last* object in the
list that resolves the counter; the counter is absent (`none`) when no object
resolves it. -/
def resolve_pc (simplify_symbol annotate_libname : Bool) (pc : Int) :
    List MappedObject → Option String
  | [] => none
  | obj :: objs =>
    match resolve_pc simplify_symbol annotate_libname pc objs with
    | some s => some s
    | none => resolve_in_obj simplify_symbol annotate_libname obj pc

/-- The symbol string the pipeline assigns to a counter:
`pcs_to_symbols.get(pc, _UNKNOWN_SYMBOL)` in `Gperf2Flamegraph.process`. -/
def final_symbol (objs : List MappedObject) (simplify_symbol annotate_libname : Bool)
    (pc : Int) : String :=
  (resolve_pc simplify_symbol annotate_libname pc objs).getD UNKNOWN_SYMBOL

lemma resolve_in_obj_of_not_in_range (b1 b2 : Bool) (obj : MappedObject) (pc : Int)
    (h : ¬ in_range obj pc) : resolve_in_obj b1 b2 obj pc = none := by
  simp [resolve_in_obj, h]

lemma resolve_pc_of_all_none (b1 b2 : Bool) (pc : Int) (objs : List MappedObject)
    (h : ∀ o ∈ objs, resolve_in_obj b1 b2 o pc = none) :
    resolve_pc b1 b2 pc objs = none := by
  induction objs with
  | nil => rfl
  | cons o objs ih =>
    rw [resolve_pc, ih (fun x hx => h x (by simp [hx]))]
    exact h o (by simp)

lemma resolve_pc_of_unique (b1 b2 : Bool) (pc : Int) (objs : List MappedObject)
    (o : MappedObject) (ho : o ∈ objs)
    (h : ∀ o2 ∈ objs, o2 ≠ o → resolve_in_obj b1 b2 o2 pc = none) :
    resolve_pc b1 b2 pc objs = resolve_in_obj b1 b2 o pc := by
  induction objs with
  | nil => cases ho
  | cons a objs ih =>
    rw [resolve_pc]
    rcases List.mem_cons.mp ho with rfl | hmem
    · by_cases hin : o ∈ objs
      · rw [ih hin (fun x hx hne => h x (by simp [hx]) hne)]
        cases hr : resolve_in_obj b1 b2 o pc <;> simp
      · have : resolve_pc b1 b2 pc objs = none := by
          refine resolve_pc_of_all_none b1 b2 pc objs (fun x hx => ?_)
          exact h x (by simp [hx]) (fun hxo => hin (hxo ▸ hx))
        rw [this]
    · rw [ih hmem (fun x hx hne => h x (by simp [hx]) hne)]
      by_cases hao : a = o
      · subst hao
        cases hr : resolve_in_obj b1 b2 a pc <;> simp
      · rw [h a (by simp) hao]
        cases hr : resolve_in_obj b1 b2 o pc <;> simp

lemma takeWhile_append_of_all {α : Type} (p : α → Bool) (l1 l2 : List α)
    (h : ∀ a ∈ l1, p a = true) :
    (l1 ++ l2).takeWhile p = l1 ++ l2.takeWhile p := by
  induction l1 with
  | nil => simp
  | cons a l1 ih =>
    simp only [List.cons_append, List.takeWhile_cons, h a (by simp)]
    rw [ih (fun x hx => h x (by simp [hx]))]
    simp

lemma takeWhile_eq_nil_of_all {α : Type} (p : α → Bool) (l : List α)
    (h : ∀ a ∈ l, p a = false) : l.takeWhile p = [] := by
  cases l with
  | nil => rfl
  | cons a l => simp [List.takeWhile_cons, h a (by simp)]

lemma get_append_middle {α : Type} (l1 : List α) (s : α) (l2 : List α) :
    (l1 ++ s :: l2).get? l1.length = some s := by
  induction l1 with
  | nil => rfl
  | cons a l1 ih => simpa using ih

/-- `resolve_in_obj` on an in-range counter whose symbol list decomposes as
`l1 ++ s :: l2` with `s.address ≤ target` and everything in `l2` beyond the
target: the bisection finds `s`.  Requires the address list to be sorted, as
guaranteed by `_find_object_all_symbols_sorted`. -/
lemma resolve_in_obj_finds (obj : MappedObject) (pc : Int)
    (hin : in_range obj pc)
    (hsorted : (obj.all_symbols_sorted.map Symbol.address).Sorted (fun a b => a ≤ b))
    (l1 : List Symbol) (s : Symbol) (l2 : List Symbol)
    (hdec : obj.all_symbols_sorted = l1 ++ s :: l2)
    (hle : s.address ≤ translate_pc obj pc)
    (hgt : ∀ s2 ∈ l2, translate_pc obj pc < s2.address) :
    resolve_in_obj false false obj pc = some s.symbol := by
  have hmap : obj.all_symbols_sorted.map Symbol.address
      = l1.map Symbol.address ++ s.address :: l2.map Symbol.address := by
    simp [hdec]
  have hall : ∀ a ∈ l1.map Symbol.address,
      (decide (a ≤ translate_pc obj pc)) = true := by
    intro a ha
    rw [hmap] at hsorted
    have := (List.pairwise_append.mp hsorted).2.2 a ha s.address (by simp)
    simp only [decide_eq_true_eq]
    omega
  have hbis : bisect_right (obj.all_symbols_sorted.map Symbol.address)
      (translate_pc obj pc) = l1.length + 1 := by
    rw [bisect_right, hmap, takeWhile_append_of_all _ _ _ hall]
    rw [List.takeWhile_cons]
    simp only [hle, decide_True]
    rw [takeWhile_eq_nil_of_all]
    · simp
    · intro a ha
      simp only [List.mem_map] at ha
      obtain ⟨s2, hs2, rfl⟩ := ha
      simpa using hgt s2 hs2
  rw [resolve_in_obj, if_pos hin]
  simp only [hbis, Nat.add_sub_cancel]
  rw [if_neg (by omega), hdec, get_append_middle]
  simp

/-- Claim C1: with non-overlapping regions (at most one region contains any
given counter, as the spec assumes) and sorted symbol addresses, the final
symbol assigned to a counter is the unknown marker when the counter lies
outside every region's `[start, end)` range or its translated target precedes
every symbol address of its region; otherwise it is the symbol of the
rightmost symbol-table entry whose address is at most the target. -/
theorem c1_resolution (objs : List MappedObject) (pc : Int)
    (huniq : ∀ o1 ∈ objs, ∀ o2 ∈ objs, in_range o1 pc → in_range o2 pc → o1 = o2) :
    ((∀ o ∈ objs, ¬ in_range o pc) →
      final_symbol objs false false pc = UNKNOWN_SYMBOL)
  ∧ (∀ o ∈ objs, in_range o pc →
      (∀ s ∈ o.all_symbols_sorted, translate_pc o pc < s.address) →
      final_symbol objs false false pc = UNKNOWN_SYMBOL)
  ∧ (∀ o ∈ objs, in_range o pc →
      (o.all_symbols_sorted.map Symbol.address).Sorted (fun a b => a ≤ b) →
      ∀ l1 s l2, o.all_symbols_sorted = l1 ++ s :: l2 →
        s.address ≤ translate_pc o pc →
        (∀ s2 ∈ l2, translate_pc o pc < s2.address) →
        final_symbol objs false false pc = s.symbol) := by
  refine ⟨?_, ?_, ?_⟩
  · intro h
    rw [final_symbol, resolve_pc_of_all_none]
    · rfl
    · exact fun o ho => resolve_in_obj_of_not_in_range _ _ o pc (h o ho)
  · intro o ho hin hall
    have hobj : resolve_in_obj false false o pc = none := by
      rw [resolve_in_obj, if_pos hin]
      have : bisect_right (o.all_symbols_sorted.map Symbol.address)
          (translate_pc o pc) = 0 := by
        rw [bisect_right, takeWhile_eq_nil_of_all]
        · rfl
        · intro a ha
          simp only [List.mem_map] at ha
          obtain ⟨s2, hs2, rfl⟩ := ha
          simpa using hall s2 hs2
      simp [this]
    rw [final_symbol, resolve_pc_of_all_none]
    · rfl
    · intro o2 ho2
      by_cases hin2 : in_range o2 pc
      · rw [huniq o2 ho2 o ho hin2 hin]
        exact hobj
      · exact resolve_in_obj_of_not_in_range _ _ o2 pc hin2
  · intro o ho hin hsorted l1 s l2 hdec hle hgt
    have hobj := resolve_in_obj_finds o pc hin hsorted l1 s l2 hdec hle hgt
    have : resolve_pc false false pc objs = resolve_in_obj false false o pc := by
      refine resolve_pc_of_unique false false pc objs o ho (fun o2 ho2 hne => ?_)
      by_cases hin2 : in_range o2 pc
      · exact absurd (huniq o2 ho2 o ho hin2 hin) hne
      · exact resolve_in_obj_of_not_in_range _ _ o2 pc hin2
    rw [final_symbol, this, hobj]
    rfl

/-- The single demonstration region of the spec's bisection example: symbols
at addresses 100, 200, 300, identity translation. -/
def demo_obj : MappedObject :=
  { start_address := 0
    end_address := 1000
    offset := 0
    obj_path := "/bin/app"
    is_executable := true
    all_symbols_sorted := [⟨100, "f"⟩, ⟨200, "g"⟩, ⟨300, "h"⟩]
    obj_start_vma := 0 }

theorem c1_resolution_witness : final_symbol [demo_obj] false false 250 = "g" :=
  (c1_resolution [demo_obj] 250 (by decide)).2.2 demo_obj (by simp)
    (by decide) (by decide) [⟨100, "f"⟩] ⟨200, "g"⟩ [⟨300, "h"⟩] rfl
    (by decide) (by decide)

/-- Two deliberately overlapping regions that both contain counter 10 and both
resolve it, with different symbols. -/
def overlap_obj_a : MappedObject :=
  { start_address := 0, end_address := 100, offset := 0, obj_path := "/bin/a"
    is_executable := true, all_symbols_sorted := [⟨0, "asym"⟩], obj_start_vma := 0 }

def overlap_obj_b : MappedObject :=
  { start_address := 0, end_address := 100, offset := 0, obj_path := "/bin/b"
    is_executable := true, all_symbols_sorted := [⟨0, "bsym"⟩], obj_start_vma := 0 }

/-- Claim C2 counterexample: with two overlapping regions that both resolve
counter 10, the pipeline assigns the symbol of the *second* region in the
list, not the first — the source's dictionary write `result[pc] = sym_str`
overwrites the earlier region's entry on each later match. -/
theorem c2_counterexample :
    final_symbol [overlap_obj_a, overlap_obj_b] false false 10 = "bsym"
  ∧ final_symbol [overlap_obj_a] false false 10 = "asym"
  ∧ "bsym" ≠ "asym" := by
  refine ⟨?_, ?_, ?_⟩ <;> decide

/-- Claim C2 (amended): when a counter lies inside more than one region, the
symbol assigned is that of the last region in the region list that
successfully resolves it; a region appended at the end of the list overrides
any earlier resolution exactly when it resolves the counter itself. -/
theorem c2_last_match_wins (objs : List MappedObject) (o : MappedObject)
    (b1 b2 : Bool) (pc : Int) :
    resolve_pc b1 b2 pc (objs ++ [o]) =
      match resolve_in_obj b1 b2 o pc with
      | some s => some s
      | none => resolve_pc b1 b2 pc objs := by
  induction objs with
  | nil =>
    rw [List.nil_append, resolve_pc]
    cases hr : resolve_in_obj b1 b2 o pc <;> simp [hr, resolve_pc]
  | cons a objs ih =>
    rw [List.cons_append, resolve_pc, ih, resolve_pc]
    cases hr : resolve_in_obj b1 b2 o pc <;> simp

/-! ## Stack aggregation (`Gperf2Flamegraph.process`) -/

/-- The trimming loop of `process` applied to the *reverse* of the root-first
list: `while len(symbols) > 1 and symbols[-1] == _UNKNOWN_SYMBOL: symbols.pop()`
removes elements from the tail, which is the head of the reversed list. -/
def drop_leading_unknown : List String → List String
  | [] => []
  | x :: xs =>
    if xs ≠ [] ∧ x = UNKNOWN_SYMBOL then drop_leading_unknown xs else x :: xs

/-- The trimming loop of `process` on the root-first symbol list: pop trailing
unknown-marker frames while more than one frame remains. -/
def trim_symbols (root_first : List String) : List String :=
  (drop_leading_unknown root_first.reverse).reverse

/-- The fold key built by `process` from a stacktrace's leaf-first resolved
symbols: reverse to root-first order, trim trailing unknown frames, join
with `;`. -/
def stack_key (leaf_first : List String) : String :=
  String.intercalate ";" (trim_symbols leaf_first.reverse)

/-- A stacktrace after symbol resolution: weight plus leaf-first symbols
(the `symbols` field that `process` fills in). -/
structure SymStack where
  sample_count : Nat
  symbols : List String
deriving DecidableEq

/-- The `defaultdict(lambda: 0)` accumulation `stacks[key] += w`, modelled as
an association list in insertion order. -/
def bump : List (String × Nat) → String → Nat → List (String × Nat)
  | [], k, w => [(k, w)]
  | (k2, w2) :: t, k, w =>
    if k2 = k then (k2, w2 + w) :: t else (k2, w2) :: bump t k w

/-- The weight stored for a key (0 when absent). -/
def lookup_weight : List (String × Nat) → String → Nat
  | [], _ => 0
  | (k2, w2) :: t, k => if k2 = k then w2 else lookup_weight t k

/-- One iteration of the stack-collection loop of `process`: skip a
stacktrace whose symbols list is empty, otherwise accumulate
`sample_count * sampling_period_in_us` (microsecond weighting) or
`sample_count` under the fold key. -/
def collect_step (to_microsecond : Bool) (sampling_period_in_us : Nat)
    (table : List (String × Nat)) (st : SymStack) : List (String × Nat) :=
  if st.symbols.isEmpty then table
  else bump table (stack_key st.symbols)
    (if to_microsecond then st.sample_count * sampling_period_in_us
     else st.sample_count)

/-- The full stack-collection loop of `process`. -/
def collect_stacks (to_microsecond : Bool) (sampling_period_in_us : Nat)
    (sts : List SymStack) : List (String × Nat) :=
  sts.foldl (collect_step to_microsecond sampling_period_in_us) []

/-- Symbol resolution of one stacktrace in `process`:
`[pcs_to_symbols.get(pc, _UNKNOWN_SYMBOL) for pc in stacktrace.pcs]`. -/
def resolve_stacktrace (objs : List MappedObject)
    (simplify_symbol annotate_libname : Bool) (st : Stacktrace) : SymStack :=
  ⟨st.sample_count, st.pcs.map (fun pc => final_symbol objs simplify_symbol
    annotate_libname (Int.ofNat pc))⟩

/-- `Gperf2Flamegraph.process` after parsing: resolve every stacktrace's
counters and fold the stacks into the weighted table. -/
def process (objs : List MappedObject)
    (simplify_symbol annotate_libname to_microsecond : Bool)
    (pr : ProfilerResult) : List (String × Nat) :=
  collect_stacks to_microsecond pr.sampling_period_in_us
    (pr.stacktraces.map (resolve_stacktrace objs simplify_symbol annotate_libname))

/-- Modelled from the spec: the fold key as §4.5 describes it — reverse the
leaf-first sequence to root-first order, drop the run of trailing
unknown-marker frames, keeping at least one frame (possibly the unknown
marker itself) when the sequence was non-empty, then join with `;`. -/
def spec_fold_key (leaf_first : List String) : String :=
  let root_first := leaf_first.reverse
  let kept := (root_first.reverse.dropWhile (fun s => s = UNKNOWN_SYMBOL)).reverse
  String.intercalate ";" (if kept.isEmpty then root_first.take 1 else kept)

lemma drop_leading_unknown_of_dropWhile_ne_nil (l : List String)
    (h : l.dropWhile (fun s => s = UNKNOWN_SYMBOL) ≠ []) :
    drop_leading_unknown l = l.dropWhile (fun s => s = UNKNOWN_SYMBOL) := by
  induction l with
  | nil => simp at h
  | cons x xs ih =>
    by_cases hx : x = UNKNOWN_SYMBOL
    · cases xs with
      | nil => simp [hx] at h
      | cons y ys =>
        rw [drop_leading_unknown, if_pos ⟨List.cons_ne_nil y ys, hx⟩,
          ih (by simpa [hx] using h)]
        simp [hx]
    · rw [drop_leading_unknown, if_neg (by simp [hx])]
      simp [hx]

lemma dropWhile_eq_nil_all (l : List String)
    (h : l.dropWhile (fun s => s = UNKNOWN_SYMBOL) = []) :
    ∀ x ∈ l, x = UNKNOWN_SYMBOL := by
  induction l with
  | nil => intro x hx; cases hx
  | cons y ys ih =>
    intro x hx
    by_cases hy : y = UNKNOWN_SYMBOL
    · rcases List.mem_cons.mp hx with rfl | hmem
      · exact hy
      · exact ih (by simpa [hy] using h) x hmem
    · simp [hy] at h

lemma drop_leading_unknown_all_unknown (l : List String)
    (hne : l ≠ []) (h : ∀ x ∈ l, x = UNKNOWN_SYMBOL) :
    drop_leading_unknown l = [UNKNOWN_SYMBOL] := by
  induction l with
  | nil => exact absurd rfl hne
  | cons x xs ih =>
    cases xs with
    | nil => rw [drop_leading_unknown, if_neg (by simp), h x (by simp)]
    | cons y ys =>
      rw [drop_leading_unknown, if_pos ⟨List.cons_ne_nil y ys, h x (by simp)⟩]
      exact ih (List.cons_ne_nil y ys) (fun z hz => h z (by simp [hz]))

/-- Claim C6: the fold key equals the spec's description — reverse to
root-first, drop trailing unknown frames while keeping at least one frame,
join with `;` — and in particular a sample resolving leaf-first to
`[sA, sB, sC]` whose leaf symbol is not the unknown marker folds to the key
`sC ; sB ; sA`. -/
theorem c6_fold_key :
    (∀ leaf_first : List String, stack_key leaf_first = spec_fold_key leaf_first)
  ∧ (∀ sA sB sC : String, sA ≠ UNKNOWN_SYMBOL →
      stack_key [sA, sB, sC] = String.intercalate ";" [sC, sB, sA]) := by
  constructor
  · intro leaf_first
    rw [stack_key, spec_fold_key, trim_symbols, List.reverse_reverse]
    by_cases h : leaf_first.dropWhile (fun s => s = UNKNOWN_SYMBOL) = []
    · by_cases hnil : leaf_first = []
      · subst hnil
        simp [drop_leading_unknown]
      · have hall := dropWhile_eq_nil_all leaf_first h
        rw [drop_leading_unknown_all_unknown leaf_first hnil hall, h]
        simp only [List.reverse_nil, List.isEmpty_nil, if_true]
        cases hr : leaf_first.reverse with
        | nil => exact absurd (List.reverse_eq_nil_iff.mp hr) hnil
        | cons y ys =>
          have hy : y = UNKNOWN_SYMBOL :=
            hall y (List.mem_reverse.mp (by rw [hr]; simp))
          simp [hy]
    · rw [drop_leading_unknown_of_dropWhile_ne_nil leaf_first h]
      have hcond : ((leaf_first.dropWhile
          (fun s => s = UNKNOWN_SYMBOL)).reverse.isEmpty) = false := by
        simp [h]
      rw [hcond]
      simp
  · intro sA sB sC hA
    rw [stack_key, trim_symbols, List.reverse_reverse]
    simp [drop_leading_unknown, hA]

theorem c6_fold_key_witness : stack_key ["leafA", "midB", "rootC"]
    = String.intercalate ";" ["rootC", "midB", "leafA"] :=
  c6_fold_key.2 "leafA" "midB" "rootC" (by decide)

lemma lookup_weight_bump (tbl : List (String × Nat)) (k : String) (w : Nat) :
    lookup_weight (bump tbl k w) k = lookup_weight tbl k + w := by
  induction tbl with
  | nil => simp [bump, lookup_weight]
  | cons p t ih =>
    by_cases h : p.1 = k
    · simp [bump, lookup_weight, h]
    · simp [bump, lookup_weight, h, ih]

/-- Claim C9: a folded sample adds exactly `sample.weight` to its table entry
when microsecond weighting is off, and `sample.weight * sampling_period_us`
when it is on. -/
theorem c9_weight (to_microsecond : Bool) (sampling_period_in_us : Nat)
    (tbl : List (String × Nat)) (st : SymStack) (h : st.symbols ≠ []) :
    lookup_weight (collect_step to_microsecond sampling_period_in_us tbl st)
        (stack_key st.symbols)
      = lookup_weight tbl (stack_key st.symbols)
        + (if to_microsecond then st.sample_count * sampling_period_in_us
           else st.sample_count) := by
  rw [collect_step, if_neg (by simpa using h), lookup_weight_bump]

/-- Claim C9 witness, the spec's example: with `sampling_period_us = 1000` a
sample of weight 5 contributes 5 to the sample-count table and 5000 to the
microsecond-weighted table. -/
theorem c9_weight_witness :
    lookup_weight (collect_step false 1000 [] ⟨5, ["a"]⟩) (stack_key ["a"]) = 5
  ∧ lookup_weight (collect_step true 1000 [] ⟨5, ["a"]⟩) (stack_key ["a"]) = 5000 :=
  ⟨(c9_weight false 1000 [] ⟨5, ["a"]⟩ (by decide)).trans (by decide),
   (c9_weight true 1000 [] ⟨5, ["a"]⟩ (by decide)).trans (by decide)⟩

/-- Claim C10: a record with positive weight and zero program counters is
accepted by the parser as a sample, but the aggregator silently skips it: its
(empty) symbol list contributes neither a key nor any weight to the table. -/
theorem c10_zero_pc_record (w t p : Nat) (hw : 0 < w) (to_microsecond : Bool)
    (sampling_period_in_us : Nat) (tbl : List (String × Nat))
    (objs : List MappedObject) (b1 b2 : Bool) :
    parse_profiler_result (0 :: 3 :: 0 :: p :: 0 :: [w, 0, 0, 1, t])
      = some ⟨p, [⟨w, []⟩], []⟩
  ∧ collect_step to_microsecond sampling_period_in_us tbl ⟨w, []⟩ = tbl
  ∧ process objs b1 b2 to_microsecond ⟨p, [⟨w, []⟩], []⟩ = [] := by
  refine ⟨?_, ?_, ?_⟩
  · rw [parse_profiler_result_header]
    show (parse_records (w :: 0 :: [0, 1, t])).map _ = _
    rw [parse_records_cons, if_pos (by simp), if_neg (by omega)]
    simp only [List.drop_zero, List.take_zero, parse_records_trailer]
    rfl
  · rw [collect_step]
    rfl
  · rw [process]
    rfl

theorem c10_zero_pc_record_witness :
    parse_profiler_result (0 :: 3 :: 0 :: 50 :: 0 :: [6, 0, 0, 1, 9])
      = some ⟨50, [⟨6, []⟩], []⟩
  ∧ collect_step true 50 [("k", 2)] ⟨6, []⟩ = [("k", 2)]
  ∧ process [demo_obj] false false true ⟨50, [⟨6, []⟩], []⟩ = [] :=
  c10_zero_pc_record 6 9 50 (by decide) true 50 [("k", 2)] [demo_obj] false false

/-! ## Memory-map model (`SymbolResolver.__init__`)

The filesystem and the two external collaborators (`nm` for symbol tables,
`readelf` for the pre-link base) are modelled as oracles supplied in an
environment record. -/

/-- Python `str.split()` with no argument: split a single line on whitespace
runs, discarding empty fields. -/
def py_split_ws (s : String) : List String :=
  ((split_on_char ' ' s.toList).map String.mk).filter (fun f => f ≠ "")

/-- Python `str.strip()` on whole text / a line (whitespace from both ends,
modelled for spaces, tabs and newlines). -/
def py_strip (s : String) : String :=
  String.mk (((s.toList.dropWhile Char.isWhitespace).reverse.dropWhile
    Char.isWhitespace).reverse)

/-- Python `str.splitlines()` on a stripped text: `''` yields no lines,
otherwise split at newline characters. -/
def py_splitlines (s : String) : List String :=
  if s = "" then [] else (split_on_char '\n' s.toList).map String.mk

/-- Python `s.startswith(pre)`. -/
def py_startswith (s pre : String) : Bool :=
  pre.toList.isPrefixOf s.toList

/-- Python `c in s` for a single character. -/
def py_contains_char (s : String) (c : Char) : Bool :=
  s.toList.contains c

/-- The first split of Python `s.split('-', 1)`: at most two pieces. -/
def split_first (c : Char) : List Char → Option (List Char × List Char)
  | [] => none
  | x :: xs =>
    if x = c then some ([], xs)
    else (split_first c xs).map (fun pr => (x :: pr.1, pr.2))

/-- Python `s.split('-', 1)`. -/
def py_split_dash1 (s : String) : List String :=
  match split_first '-' s.toList with
  | none => [s]
  | some (a, b) => [String.mk a, String.mk b]

/-- One hexadecimal digit, or `none`. -/
def hex_digit (c : Char) : Option Nat :=
  if '0' ≤ c ∧ c ≤ '9' then some (c.toNat - '0'.toNat)
  else if 'a' ≤ c ∧ c ≤ 'f' then some (c.toNat - 'a'.toNat + 10)
  else if 'A' ≤ c ∧ c ≤ 'F' then some (c.toNat - 'A'.toNat + 10)
  else none

def hex_chars_aux (acc : Nat) : List Char → Option Nat
  | [] => some acc
  | c :: cs =>
    match hex_digit c with
    | some d => hex_chars_aux (acc * 16 + d) cs
    | none => none

/-- Python `int(s, 16)` on a plain hex field: fails (`ValueError`) on an
empty string or a non-hex character. -/
def hex_nat (s : String) : Option Nat :=
  if s.toList.isEmpty then none else hex_chars_aux 0 s.toList

/-- The fatal exceptions `SymbolResolver.__init__` can raise while parsing a
memory-map line: `fields[0]` / `addr_fileds[1]` on a too-short list
(IndexError) and `int(..., 16)` on a non-hex field (ValueError). -/
inductive InitError
  | index_error
  | value_error
deriving DecidableEq

/-- The external collaborators and filesystem of `SymbolResolver.__init__`:
whether a backing file exists and is readable, the sorted symbol table `nm`
returns for it, and the pre-link base `readelf` yields for it. -/
structure Env where
  file_ok : String → Bool
  symbols_of : String → List Symbol
  start_vma_of : String → Int

/-- The backing path after the primary-executable substitution: if the map
line's file name matches the executable's file name, the caller-supplied
executable path replaces it. -/
def resolved_obj_path (executable f5 : String) : String :=
  if path_name f5 = path_name executable then executable else f5

/-- One iteration of the mapped-objects loop of `SymbolResolver.__init__`:
`ok none` when the line is skipped, `ok (some obj)` when a region is added,
`error _` when the line raises.  Note the source reads `fields[0]` *before*
checking the field count, so a line with zero whitespace fields raises
IndexError instead of being skipped. -/
def process_fields (env : Env) (executable : String) (executable_only : Bool) :
    List String → Except InitError (Option MappedObject)
  | [] => .error .index_error
  | f0 :: fs =>
    if (f0 :: fs).length ≠ 6 ∨ ¬ py_contains_char ((f0 :: fs).getD 1 "") 'x'
      then .ok none
    else if executable_only ∧
        ¬ (path_name ((f0 :: fs).getD 5 "") = path_name executable) then .ok none
    else if ¬ env.file_ok (resolved_obj_path executable ((f0 :: fs).getD 5 ""))
      then .ok none
    else
      match py_split_dash1 f0 with
      | [a0, a1] =>
        match hex_nat a0, hex_nat a1, hex_nat ((f0 :: fs).getD 2 "") with
        | some sa, some ea, some off =>
          .ok (some
            { start_address := (sa : Int)
              end_address := (ea : Int)
              offset := (off : Int)
              obj_path := resolved_obj_path executable ((f0 :: fs).getD 5 "")
              is_executable :=
                decide (path_name ((f0 :: fs).getD 5 "") = path_name executable)
              all_symbols_sorted :=
                env.symbols_of (resolved_obj_path executable ((f0 :: fs).getD 5 ""))
              obj_start_vma :=
                env.start_vma_of (resolved_obj_path executable ((f0 :: fs).getD 5 "")) })
        | _, _, _ => .error .value_error
      | _ => .error .index_error

/-- One iteration of the mapped-objects loop of `SymbolResolver.__init__` on
a whole line: skip build-id lines, then process the whitespace fields. -/
def process_line (env : Env) (executable : String) (executable_only : Bool)
    (line : String) : Except InitError (Option MappedObject) :=
  if py_startswith line "build=" then .ok none
  else process_fields env executable executable_only (py_split_ws (py_strip line))

/-- The line loop of `SymbolResolver.__init__` over the already-split lines. -/
def init_lines (env : Env) (executable : String) (executable_only : Bool) :
    List String → Except InitError (List MappedObject)
  | [] => .ok []
  | l :: ls =>
    match process_line env executable executable_only l with
    | .error e => .error e
    | .ok none => init_lines env executable executable_only ls
    | .ok (some obj) =>
      match init_lines env executable executable_only ls with
      | .error e => .error e
      | .ok objs => .ok (obj :: objs)

/-- `SymbolResolver.__init__`: iterate over
`proc_mapped_objects.strip().splitlines()`. -/
def init_mapped_objects (env : Env) (executable : String)
    (executable_only : Bool) (text : String) : Except InitError (List MappedObject) :=
  init_lines env executable executable_only (py_splitlines (py_strip text))

/-- A permissive demonstration environment: every file exists and is
readable, with a one-symbol table. -/
def env_demo : Env :=
  { file_ok := fun _ => true
    symbols_of := fun _ => [⟨0, "sym0"⟩]
    start_vma_of := fun _ => 0 }

/-- Claim C8 counterexample: a memory-map text containing an empty interior
line — a line that does not split into exactly 6 whitespace fields — is not
silently skipped: the source reads `fields[0]` before checking the field
count, so construction aborts with an IndexError. -/
theorem c8_counterexample :
    init_mapped_objects env_demo "/bin/app" false "ab\n\ncd"
      = .error .index_error := rfl

/-- Claim C8 (amended): a memory-map line is skipped without error when it
starts with the build-id marker, or splits into at least one but not exactly
6 whitespace fields, or has a permissions field without the executable flag;
a line whose backing file does not exist or is not readable is silently
dropped.  (A line with *zero* whitespace fields instead raises an
IndexError, per the counterexample.) -/
theorem c8_skip_rules (env : Env) (executable : String) (executable_only : Bool)
    (line : String) :
    (py_startswith line "build=" = true →
      process_line env executable executable_only line = .ok none)
  ∧ (∀ f fs, py_split_ws (py_strip line) = f :: fs →
      py_startswith line "build=" = false → (f :: fs).length ≠ 6 →
      process_line env executable executable_only line = .ok none)
  ∧ (∀ f fs, py_split_ws (py_strip line) = f :: fs →
      py_startswith line "build=" = false →
      py_contains_char ((f :: fs).getD 1 "") 'x' = false →
      process_line env executable executable_only line = .ok none)
  ∧ (∀ f fs, py_split_ws (py_strip line) = f :: fs →
      py_startswith line "build=" = false →
      env.file_ok (resolved_obj_path executable ((f :: fs).getD 5 "")) = false →
      process_line env executable executable_only line = .ok none) := by
  refine ⟨?_, ?_, ?_, ?_⟩
  · intro h
    rw [process_line, if_pos h]
  · intro f fs hsplit hb hlen
    rw [process_line, if_neg (by simp [hb]), hsplit, process_fields,
      if_pos (Or.inl hlen)]
  · intro f fs hsplit hb hx
    rw [process_line, if_neg (by simp [hb]), hsplit, process_fields,
      if_pos (Or.inr (by rw [hx]; simp))]
  · intro f fs hsplit hb hfile
    rw [process_line, if_neg (by simp [hb]), hsplit, process_fields]
    by_cases hlen : (f :: fs).length ≠ 6 ∨
        ¬ py_contains_char ((f :: fs).getD 1 "") 'x'
    · rw [if_pos hlen]
    · rw [if_neg hlen]
      by_cases hexe : executable_only ∧
          ¬ path_name ((f :: fs).getD 5 "") = path_name executable
      · rw [if_pos hexe]
      · rw [if_neg hexe, if_pos (by rw [hfile]; simp)]

theorem c8_skip_rules_witness :
    process_line env_demo "/bin/app" false "build=abcd" = .ok none
  ∧ process_line env_demo "/bin/app" false "00-01 r-xp 00" = .ok none
  ∧ process_line env_demo "/bin/app" false
      "00-01 r--p 00 00:00 0 /lib/x.so" = .ok none
  ∧ process_line
      ⟨fun _ => false, fun _ => [], fun _ => 0⟩ "/bin/app" false
      "00-01 r-xp 00 00:00 0 /lib/x.so" = .ok none :=
  ⟨(c8_skip_rules env_demo "/bin/app" false "build=abcd").1 (by decide),
   (c8_skip_rules env_demo "/bin/app" false "00-01 r-xp 00").2.1
     "00-01" ["r-xp", "00"] (by decide) (by decide) (by decide),
   (c8_skip_rules env_demo "/bin/app" false
       "00-01 r--p 00 00:00 0 /lib/x.so").2.2.1
     "00-01" ["r--p", "00", "00:00", "0", "/lib/x.so"] (by decide) (by decide)
     (by decide),
   (c8_skip_rules ⟨fun _ => false, fun _ => [], fun _ => 0⟩ "/bin/app" false
       "00-01 r-xp 00 00:00 0 /lib/x.so").2.2.2
     "00-01" ["r-xp", "00", "00:00", "0", "/lib/x.so"] (by decide) (by decide)
     rfl⟩

end Gperf
